import Mathlib

/-!
Verification of the in-memory job broker (`InternalQueue`) of the
tattvaMente repository.

The broker keeps a Pending Index (`pendingJobs`, a JS `Map` from job id to
`Job`, modelled as an insertion-ordered association list), a dispatch
queue (`queue`, a list of ids in submission order), a heartbeat timestamp
and an explicit connection flag.  The public operations are `connect`,
`disconnect`, `registerHeartbeat`, `isWorkerActive`, `clearQueue`,
`addJob` (submit), `getNextJob` (poll), `completeJob` (complete) and
`getPendingCount`.

Wall-clock time (`Date.now()`) is passed explicitly as a `now : Nat`
argument wherever the source reads the clock; the fresh id from
`crypto.randomUUID()` is passed as an explicit `id : Nat` argument
(freshness, where needed, is a hypothesis mirroring UUID uniqueness).
The `resolve` / `reject` callbacks stored on each job are modelled by an
append-only event log (`events`) recording every resolution delivered to
an awaiting caller, in order.
-/

namespace TattvaMente

/-- The failure reasons produced by the broker, one per `new Error(...)`
site in the source (`workerError` carries the worker-supplied error string
passed to `completeJob`). -/
inductive QueueError where
  | workerUnavailable
  | workerDisconnected
  | timedOut
  | workerError (msg : String)
deriving DecidableEq

/-- One job record: id, opaque request payload, and creation timestamp.
The `resolve`/`reject` closures of the source are modelled by the broker
event log instead of being stored here. -/
structure Job (Req : Type) where
  id : Nat
  request : Req
  timestamp : Nat
deriving DecidableEq

/-- A resolution delivered to an awaiting caller: the job's completion
slot was written with a success value or a failure reason. -/
inductive JobEvent (Res : Type) where
  | resolved (id : Nat) (result : Res)
  | rejected (id : Nat) (err : QueueError)
deriving DecidableEq

/-- `Map.get`: first binding of the key, if any. -/
def mapGet {α : Type} : List (Nat × α) → Nat → Option α
  | [], _ => none
  | (k, v) :: m, k' => if k = k' then some v else mapGet m k'

/-- `Map.set`: update an existing binding in place (keeping insertion
order) or append a new one, as a JS `Map` does. -/
def mapSet {α : Type} : List (Nat × α) → Nat → α → List (Nat × α)
  | [], k, v => [(k, v)]
  | (k', v') :: m, k, v =>
    if k' = k then (k, v) :: m else (k', v') :: mapSet m k v

/-- `Map.delete`: remove the bindings of a key. -/
def mapDelete {α : Type} : List (Nat × α) → Nat → List (Nat × α)
  | [], _ => []
  | (k', v') :: m, k =>
    if k' = k then mapDelete m k else (k', v') :: mapDelete m k

/-- The broker state: Pending Index, dispatch queue, last heartbeat
timestamp, connection flag, plus the ghost event log of resolutions
delivered to callers. -/
structure InternalQueue (Req Res : Type) where
  pendingJobs : List (Nat × Job Req)
  queue : List Nat
  lastWorkerHeartbeat : Nat
  isConnected : Bool
  events : List (JobEvent Res)
deriving DecidableEq

namespace InternalQueue

variable {Req Res : Type}

/-- The constructor: empty maps, zero heartbeat, not connected. -/
def init : InternalQueue Req Res :=
  { pendingJobs := [], queue := [], lastWorkerHeartbeat := 0,
    isConnected := false, events := [] }

/-- The liveness window: `Date.now() - this.lastWorkerHeartbeat < 15000`. -/
def livenessWindowMs : Nat := 15000

/-- The cleanup timeout scheduled by `addJob`: `setTimeout(..., 60000)`. -/
def timeoutWindowMs : Nat := 60000

/-- `connect()`: set the flag and stamp the heartbeat. -/
def connect (q : InternalQueue Req Res) (now : Nat) : InternalQueue Req Res :=
  { q with isConnected := true, lastWorkerHeartbeat := now }

/-- `registerHeartbeat()`: refresh the timestamp only if connected. -/
def registerHeartbeat (q : InternalQueue Req Res) (now : Nat) :
    InternalQueue Req Res :=
  if q.isConnected then { q with lastWorkerHeartbeat := now } else q

/-- `isWorkerActive()`: explicitly connected and recent heartbeat.
(`Nat` truncated subtraction agrees with the JS signed subtraction here:
when `now < lastWorkerHeartbeat` both sides of the comparison are below
the window, so both return `true`.) -/
def isWorkerActive (q : InternalQueue Req Res) (now : Nat) : Bool :=
  q.isConnected && decide (now - q.lastWorkerHeartbeat < livenessWindowMs)

/-- `clearQueue()`: walk the dispatch queue, rejecting each id whose job
is still in the Pending Index with the "Worker disconnected" error, then
clear both structures.  Note the loop ranges over `this.queue` only. -/
def clearQueue (q : InternalQueue Req Res) : InternalQueue Req Res :=
  { q with
    events := q.events ++ q.queue.filterMap (fun id =>
      (mapGet q.pendingJobs id).map
        (fun _ => JobEvent.rejected id QueueError.workerDisconnected)),
    pendingJobs := [],
    queue := [] }

/-- `disconnect()`: clear the flag and the heartbeat, then `clearQueue()`. -/
def disconnect (q : InternalQueue Req Res) : InternalQueue Req Res :=
  clearQueue { q with isConnected := false, lastWorkerHeartbeat := 0 }

/-- Outcome of `addJob`: the returned promise rejects immediately, or the
job is accepted under a fresh id with a cleanup timer scheduled for
`timeoutAt`. -/
inductive AddJobOutcome where
  | rejectedNow (err : QueueError)
  | accepted (id : Nat) (timeoutAt : Nat)
deriving DecidableEq

/-- `addJob(request)`: reject with the worker-unavailable error if
`isWorkerActive()` is false (no state touched); otherwise store the job
in the Pending Index, push its id on the dispatch queue, and schedule the
60s cleanup timeout. -/
def addJob (q : InternalQueue Req Res) (request : Req) (now : Nat)
    (id : Nat) : AddJobOutcome × InternalQueue Req Res :=
  if !(q.isWorkerActive now) then
    (AddJobOutcome.rejectedNow QueueError.workerUnavailable, q)
  else
    let job : Job Req := { id := id, request := request, timestamp := now }
    (AddJobOutcome.accepted id (now + timeoutWindowMs),
      { q with pendingJobs := mapSet q.pendingJobs id job,
               queue := q.queue ++ [id] })

/-- The cleanup-timeout callback scheduled by `addJob` for a given id: if
the job is still in the Pending Index, reject it with the timeout error,
delete it from the index and filter its id out of the queue; otherwise do
nothing. -/
def fireTimeout (q : InternalQueue Req Res) (id : Nat) :
    InternalQueue Req Res :=
  match mapGet q.pendingJobs id with
  | some _ =>
    { q with
      events := q.events ++ [JobEvent.rejected id QueueError.timedOut],
      pendingJobs := mapDelete q.pendingJobs id,
      queue := q.queue.filter (fun qId => qId ≠ id) }
  | none => q

/-- `getNextJob()`: return `null` immediately when not connected (a
straggler poll must not re-enable the queue); otherwise refresh the
heartbeat, pop the head id, look it up in the Pending Index, and return
the job if found. -/
def getNextJob (q : InternalQueue Req Res) (now : Nat) :
    Option (Nat × Req) × InternalQueue Req Res :=
  if !q.isConnected then (none, q)
  else
    let q1 := q.registerHeartbeat now
    match q1.queue with
    | [] => (none, q1)
    | id :: rest =>
      let q2 := { q1 with queue := rest }
      match mapGet q2.pendingJobs id with
      | none => (none, q2)
      | some job => (some (job.id, job.request), q2)

/-- JS truthiness of the optional `error` string argument of
`completeJob` (`undefined` and `""` are falsy). -/
def errTruthy : Option String → Bool
  | none => false
  | some s => decide (s ≠ "")

/-- `completeJob(id, result, error?)`: look the id up in the Pending
Index; if absent return `false` with no mutation; if present resolve or
reject the caller's handle, delete the id from the index, return `true`. -/
def completeJob (q : InternalQueue Req Res) (id : Nat) (result : Res)
    (error : Option String) : Bool × InternalQueue Req Res :=
  match mapGet q.pendingJobs id with
  | some _ =>
    let ev := if errTruthy error then
        JobEvent.rejected id (QueueError.workerError (error.getD ""))
      else JobEvent.resolved id result
    (true, { q with events := q.events ++ [ev],
                    pendingJobs := mapDelete q.pendingJobs id })
  | none => (false, q)

/-- `getPendingCount()`: the dispatch-queue length. -/
def getPendingCount (q : InternalQueue Req Res) : Nat :=
  q.queue.length

end InternalQueue

/-- One public operation of the broker, with the clock reading and the
fresh id it consumes made explicit. `timeoutFires id` is the cleanup
timer of a previous submission firing. -/
inductive Op (Req Res : Type) where
  | connect (now : Nat)
  | disconnect
  | submit (request : Req) (now : Nat) (id : Nat)
  | poll (now : Nat)
  | complete (id : Nat) (result : Res) (error : Option String)
  | timeoutFires (id : Nat)
deriving DecidableEq

/-- State transition of one operation (outputs discarded). -/
def step {Req Res : Type} (q : InternalQueue Req Res) :
    Op Req Res → InternalQueue Req Res
  | Op.connect now => q.connect now
  | Op.disconnect => q.disconnect
  | Op.submit r now id => (q.addJob r now id).2
  | Op.poll now => (q.getNextJob now).2
  | Op.complete id res err => (q.completeJob id res err).2
  | Op.timeoutFires id => q.fireTimeout id

/-- Run a sequence of operations. -/
def run {Req Res : Type} (q : InternalQueue Req Res) :
    List (Op Req Res) → InternalQueue Req Res
  | [] => q
  | op :: ops => run (step q op) ops

/-- The job ids an operation hands to the worker (non-empty only for a
poll that returns a job). -/
def deliveredOf {Req Res : Type} (q : InternalQueue Req Res) :
    Op Req Res → List Nat
  | Op.poll now =>
    match (q.getNextJob now).1 with
    | some out => [out.1]
    | none => []
  | _ => []

/-- All job ids delivered by polls along a run, in order. -/
def deliveries {Req Res : Type} (q : InternalQueue Req Res) :
    List (Op Req Res) → List Nat
  | [] => []
  | op :: ops => deliveredOf q op ++ deliveries (step q op) ops

/-- The ids consumed by the submit operations of a trace, in order. -/
def submitIds {Req Res : Type} : List (Op Req Res) → List Nat
  | [] => []
  | Op.submit _ _ id :: ops => id :: submitIds ops
  | _ :: ops => submitIds ops

/-- Iterated polling: thread the state through a list of poll times. -/
def pollMany {Req Res : Type} (q : InternalQueue Req Res)
    (ts : List Nat) : InternalQueue Req Res :=
  ts.foldl (fun s t => (s.getNextJob t).2) q

/-! ### Association-list map lemmas -/

/-- Lookup after `set` at the written key. -/
theorem mapGet_set_self {α : Type} (m : List (Nat × α)) (k : Nat) (v : α) :
    mapGet (mapSet m k v) k = some v := by
  induction m with
  | nil => simp [mapSet, mapGet]
  | cons p m ih =>
    obtain ⟨k', v'⟩ := p
    by_cases h : k' = k
    · subst h; simp [mapSet, mapGet]
    · simp [mapSet, mapGet, h, ih]

/-- Lookup after `set` at a different key. -/
theorem mapGet_set_ne {α : Type} (m : List (Nat × α)) (k k' : Nat) (v : α)
    (h : k' ≠ k) : mapGet (mapSet m k v) k' = mapGet m k' := by
  induction m with
  | nil => simp [mapSet, mapGet, Ne.symm h]
  | cons p m ih =>
    obtain ⟨k0, v0⟩ := p
    by_cases h0 : k0 = k
    · subst h0; simp [mapSet, mapGet, Ne.symm h]
    · simp [mapSet, mapGet, h0, ih]

/-- Lookup after `delete` at the deleted key. -/
theorem mapGet_delete_self {α : Type} (m : List (Nat × α)) (k : Nat) :
    mapGet (mapDelete m k) k = none := by
  induction m with
  | nil => simp [mapDelete, mapGet]
  | cons p m ih =>
    obtain ⟨k0, v0⟩ := p
    by_cases h0 : k0 = k
    · simp [mapDelete, mapGet, h0, ih]
    · simp [mapDelete, mapGet, h0, ih]

/-- Lookup after `delete` at a different key. -/
theorem mapGet_delete_ne {α : Type} (m : List (Nat × α)) (k k' : Nat)
    (h : k' ≠ k) : mapGet (mapDelete m k) k' = mapGet m k' := by
  induction m with
  | nil => simp [mapDelete, mapGet]
  | cons p m ih =>
    obtain ⟨k0, v0⟩ := p
    by_cases h0 : k0 = k
    · subst h0
      simp [mapDelete, mapGet, Ne.symm h, ih]
    · simp [mapDelete, mapGet, h0, ih]

/-- A successful lookup exhibits a binding of the list. -/
theorem mapGet_mem {α : Type} (m : List (Nat × α)) (k : Nat) (v : α)
    (h : mapGet m k = some v) : (k, v) ∈ m := by
  induction m with
  | nil => simp [mapGet] at h
  | cons p m ih =>
    obtain ⟨k0, v0⟩ := p
    by_cases h0 : k0 = k
    · subst h0
      simp [mapGet] at h
      simp [h]
    · simp [mapGet, h0] at h
      exact List.mem_cons_of_mem _ (ih h)

/-- `set` preserves a pointwise property that the new binding satisfies. -/
theorem mapSet_forall {α : Type} (P : Nat × α → Prop) (m : List (Nat × α))
    (k : Nat) (v : α) (hm : ∀ p ∈ m, P p) (hv : P (k, v)) :
    ∀ p ∈ mapSet m k v, P p := by
  induction m with
  | nil =>
    intro p hp
    have hpv : p = (k, v) := by simpa [mapSet] using hp
    rw [hpv]; exact hv
  | cons p0 m ih =>
    obtain ⟨k0, v0⟩ := p0
    intro p hp
    by_cases h0 : k0 = k
    · subst h0
      rw [mapSet, if_pos rfl] at hp
      rcases List.mem_cons.mp hp with h | h
      · rw [h]; exact hv
      · exact hm p (List.mem_cons_of_mem _ h)
    · rw [mapSet, if_neg h0] at hp
      rcases List.mem_cons.mp hp with h | h
      · rw [h]; exact hm (k0, v0) (List.mem_cons_self _ _)
      · exact ih (fun p' hp' => hm p' (List.mem_cons_of_mem _ hp')) p h

/-- Every binding surviving a `delete` was a binding before. -/
theorem mapDelete_subset {α : Type} (m : List (Nat × α)) (k : Nat) :
    ∀ p ∈ mapDelete m k, p ∈ m := by
  induction m with
  | nil => simp [mapDelete]
  | cons p0 m ih =>
    obtain ⟨k0, v0⟩ := p0
    intro p hp
    by_cases h0 : k0 = k
    · rw [mapDelete, if_pos h0] at hp
      exact List.mem_cons_of_mem _ (ih p hp)
    · rw [mapDelete, if_neg h0] at hp
      rcases List.mem_cons.mp hp with h | h
      · rw [h]; exact List.mem_cons_self _ _
      · exact List.mem_cons_of_mem _ (ih p h)

/-! ### Basic broker lemmas -/

namespace InternalQueue

variable {Req Res : Type}

/-- `disconnect` leaves the connection flag cleared. -/
theorem disconnect_isConnected (q : InternalQueue Req Res) :
    (q.disconnect).isConnected = false := by
  simp [disconnect, clearQueue]

/-- A poll while not connected returns no job and leaves the state alone. -/
theorem getNextJob_not_connected (q : InternalQueue Req Res) (now : Nat)
    (h : q.isConnected = false) : q.getNextJob now = (none, q) := by
  simp [getNextJob, h]

/-- A heartbeat while not connected is a no-op. -/
theorem registerHeartbeat_not_connected (q : InternalQueue Req Res) (now : Nat)
    (h : q.isConnected = false) : q.registerHeartbeat now = q := by
  simp [registerHeartbeat, h]

/-- Iterated polling while not connected is a no-op. -/
theorem pollMany_not_connected (q : InternalQueue Req Res) (ts : List Nat)
    (h : q.isConnected = false) : pollMany q ts = q := by
  induction ts with
  | nil => rfl
  | cons t ts ih =>
    show pollMany ((q.getNextJob t).2) ts = q
    rw [getNextJob_not_connected q t h]
    exact ih

/-- A successful poll from a connected broker with a deliverable head. -/
theorem getNextJob_cons (q : InternalQueue Req Res) (now id : Nat)
    (rest : List Nat) (j : Job Req)
    (hc : q.isConnected = true) (hq : q.queue = id :: rest)
    (hm : mapGet q.pendingJobs id = some j) :
    q.getNextJob now =
      (some (j.id, j.request),
        { q with lastWorkerHeartbeat := now, queue := rest }) := by
  simp [getNextJob, registerHeartbeat, hc, hq, hm]

/-- An accepted submission: state effect when the worker is active. -/
theorem addJob_active (q : InternalQueue Req Res) (r : Req) (now id : Nat)
    (h : q.isWorkerActive now = true) :
    q.addJob r now id =
      (AddJobOutcome.accepted id (now + timeoutWindowMs),
        { q with pendingJobs := mapSet q.pendingJobs id (Job.mk id r now),
                 queue := q.queue ++ [id] }) := by
  simp [addJob, h]

/-- A poll never adds index entries or queue ids: the resulting Pending
Index is the old one and the resulting queue ids all come from the old
queue. -/
theorem getNextJob_frame (q : InternalQueue Req Res) (now : Nat) :
    ((q.getNextJob now).2).pendingJobs = q.pendingJobs ∧
    ∀ id ∈ ((q.getNextJob now).2).queue, id ∈ q.queue := by
  cases hc : q.isConnected with
  | false => simp [getNextJob, hc]
  | true =>
    cases hq : q.queue with
    | nil => simp [getNextJob, registerHeartbeat, hc, hq]
    | cons id0 rest =>
      cases hm : mapGet q.pendingJobs id0 with
      | none =>
        constructor
        · simp [getNextJob, registerHeartbeat, hc, hq, hm]
        · intro id hid
          simp [getNextJob, registerHeartbeat, hc, hq, hm] at hid
          exact List.mem_cons_of_mem _ hid
      | some j =>
        constructor
        · simp [getNextJob, registerHeartbeat, hc, hq, hm]
        · intro id hid
          simp [getNextJob, registerHeartbeat, hc, hq, hm] at hid
          exact List.mem_cons_of_mem _ hid

end InternalQueue

/-! ### The claims -/

/-- C3: for every request, if `isWorkerActive` is false (not connected, or
the last heartbeat is older than the liveness window), `addJob` fails
immediately with the worker-unavailable error and the broker state is
returned unchanged — no job id is stored in the dispatch queue or the
Pending Index. -/
theorem claim_c3_unavailable_rejection {Req Res : Type}
    (q : InternalQueue Req Res) (r : Req) (now id : Nat)
    (h : q.isWorkerActive now = false) :
    q.addJob r now id =
      (InternalQueue.AddJobOutcome.rejectedNow QueueError.workerUnavailable, q) := by
  simp [InternalQueue.addJob, h]

/-- C3 witness: a freshly constructed broker is not active, and a submit
against it rejects with the worker-unavailable error without mutation. -/
theorem claim_c3_witness :
    InternalQueue.addJob (InternalQueue.init : InternalQueue Nat Nat) 7 0 1 =
      (InternalQueue.AddJobOutcome.rejectedNow QueueError.workerUnavailable,
        InternalQueue.init) :=
  claim_c3_unavailable_rejection InternalQueue.init 7 0 1 (by decide)

/-- C4: completing an id absent from the Pending Index returns `false`
and performs no mutation of the broker state; consequently a second
`completeJob` for an id already resolved by a first `completeJob` returns
`false` and leaves the state of the first resolution (including the event
log of resolutions delivered to callers) untouched. -/
theorem claim_c4_idempotent_completion {Req Res : Type}
    (q : InternalQueue Req Res) (id : Nat) (r r' : Res)
    (e e' : Option String) :
    (mapGet q.pendingJobs id = none → q.completeJob id r e = (false, q)) ∧
    (∀ q1, q.completeJob id r e = (true, q1) →
      q1.completeJob id r' e' = (false, q1)) := by
  constructor
  · intro h
    simp [InternalQueue.completeJob, h]
  · intro q1 h
    cases hm : mapGet q.pendingJobs id with
    | none => simp [InternalQueue.completeJob, hm] at h
    | some j =>
      simp [InternalQueue.completeJob, hm] at h
      have hp : q1.pendingJobs = mapDelete q.pendingJobs id := by
        rw [← h]
      simp [InternalQueue.completeJob, hp, mapGet_delete_self]

/-- C4 witness: completing an unknown id on the empty broker returns
`false` and changes nothing. -/
theorem claim_c4_witness :
    InternalQueue.completeJob (InternalQueue.init : InternalQueue Nat Nat)
      1 0 none = (false, InternalQueue.init) :=
  (claim_c4_idempotent_completion InternalQueue.init 1 0 0 none none).1 rfl

/-- C6: when the cleanup timer of an accepted job fires while the job is
still pending, the job is rejected with the timeout error (resolving the
caller's handle) and its id is removed from both the Pending Index and
the dispatch queue; if the job was already resolved the timer is a no-op;
and the timer of an accepted submission is scheduled exactly 60000 ms
(60 time units) after the submission time. -/
theorem claim_c6_timeout_sweep {Req Res : Type} (q : InternalQueue Req Res)
    (id : Nat) :
    (∀ j, mapGet q.pendingJobs id = some j →
      mapGet (q.fireTimeout id).pendingJobs id = none ∧
      id ∉ (q.fireTimeout id).queue ∧
      (q.fireTimeout id).events =
        q.events ++ [JobEvent.rejected id QueueError.timedOut]) ∧
    (mapGet q.pendingJobs id = none → q.fireTimeout id = q) ∧
    (∀ (r : Req) (now i : Nat), q.isWorkerActive now = true →
      (q.addJob r now i).1 =
        InternalQueue.AddJobOutcome.accepted i (now + 60000)) := by
  refine ⟨?_, ?_, ?_⟩
  · intro j hj
    refine ⟨?_, ?_, ?_⟩
    · simp [InternalQueue.fireTimeout, hj, mapGet_delete_self]
    · simp [InternalQueue.fireTimeout, hj, List.mem_filter]
    · simp [InternalQueue.fireTimeout, hj]
  · intro h
    simp [InternalQueue.fireTimeout, h]
  · intro r now i h
    simp [InternalQueue.addJob, h, InternalQueue.timeoutWindowMs]

/-- C6 witness: firing the timer of the single pending job removes it
from index and queue and delivers the timeout rejection. -/
theorem claim_c6_witness :
    mapGet ((InternalQueue.mk [(1, Job.mk 1 42 0)] [1] 0 true []
        : InternalQueue Nat Nat).fireTimeout 1).pendingJobs 1 = none ∧
    1 ∉ ((InternalQueue.mk [(1, Job.mk 1 42 0)] [1] 0 true []
        : InternalQueue Nat Nat).fireTimeout 1).queue ∧
    ((InternalQueue.mk [(1, Job.mk 1 42 0)] [1] 0 true []
        : InternalQueue Nat Nat).fireTimeout 1).events =
      [] ++ [JobEvent.rejected 1 QueueError.timedOut] :=
  (claim_c6_timeout_sweep
    (InternalQueue.mk [(1, Job.mk 1 42 0)] [1] 0 true []) 1).1
    (Job.mk 1 42 0) (by decide)

/-- C7: after `disconnect` (and before any `connect`), the connection
flag is down, a poll returns no job and leaves the state untouched (no
queue pop, no heartbeat refresh), a heartbeat call is a no-op, and no
sequence of polls alone changes the state or makes `isWorkerActive` true
again. -/
theorem claim_c7_stale_poll_immunity {Req Res : Type}
    (q : InternalQueue Req Res) (now : Nat) (ts : List Nat) :
    (q.disconnect).isConnected = false ∧
    (q.disconnect).getNextJob now = (none, q.disconnect) ∧
    (q.disconnect).registerHeartbeat now = q.disconnect ∧
    pollMany (q.disconnect) ts = q.disconnect ∧
    (pollMany (q.disconnect) ts).isWorkerActive now = false := by
  have hd := InternalQueue.disconnect_isConnected q
  refine ⟨hd, InternalQueue.getNextJob_not_connected _ now hd,
    InternalQueue.registerHeartbeat_not_connected _ now hd,
    InternalQueue.pollMany_not_connected _ ts hd, ?_⟩
  rw [InternalQueue.pollMany_not_connected _ ts hd]
  simp [InternalQueue.isWorkerActive, hd]

/-- C9: a poll that returns a job pops exactly the head of the dispatch
queue and leaves the Pending Index unchanged — every index entry,
including the returned job's, is still present immediately after. -/
theorem claim_c9_poll_frame {Req Res : Type} (q : InternalQueue Req Res)
    (now : Nat) (out : Nat × Req) (q1 : InternalQueue Req Res)
    (h : q.getNextJob now = (some out, q1)) :
    q1.pendingJobs = q.pendingJobs ∧
    q1.queue = q.queue.drop 1 ∧
    ∃ id j, q.queue.head? = some id ∧ mapGet q1.pendingJobs id = some j ∧
      out = (j.id, j.request) := by
  cases hc : q.isConnected with
  | false => simp [InternalQueue.getNextJob, hc] at h
  | true =>
    cases hq : q.queue with
    | nil =>
      simp [InternalQueue.getNextJob, InternalQueue.registerHeartbeat,
        hc, hq] at h
    | cons id rest =>
      cases hm : mapGet q.pendingJobs id with
      | none =>
        simp [InternalQueue.getNextJob, InternalQueue.registerHeartbeat,
          hc, hq, hm] at h
      | some j =>
        have := InternalQueue.getNextJob_cons q now id rest j hc hq hm
        rw [this] at h
        obtain ⟨hout, hq1⟩ := Prod.mk.injEq .. ▸ h
        have hout' : out = (j.id, j.request) := by
          exact (Option.some.injEq .. ▸ hout).symm
        refine ⟨?_, ?_, id, j, ?_, ?_, hout'⟩
        · rw [← hq1]
        · rw [← hq1]; rfl
        · rfl
        · rw [← hq1]; exact hm

/-- C9 witness: polling a one-element queue pops the id but leaves the
Pending Index binding in place. -/
theorem claim_c9_witness :
    (InternalQueue.mk [(1, Job.mk 1 42 0)] [] 5 true []
        : InternalQueue Nat Nat).pendingJobs =
      (InternalQueue.mk [(1, Job.mk 1 42 0)] [1] 0 true []
        : InternalQueue Nat Nat).pendingJobs ∧
    (InternalQueue.mk [(1, Job.mk 1 42 0)] [] 5 true []
        : InternalQueue Nat Nat).queue =
      (InternalQueue.mk [(1, Job.mk 1 42 0)] [1] 0 true []
        : InternalQueue Nat Nat).queue.drop 1 ∧
    ∃ id j,
      (InternalQueue.mk [(1, Job.mk 1 42 0)] [1] 0 true []
        : InternalQueue Nat Nat).queue.head? = some id ∧
      mapGet (InternalQueue.mk [(1, Job.mk 1 42 0)] [] 5 true []
        : InternalQueue Nat Nat).pendingJobs id = some j ∧
      ((1 : Nat), (42 : Nat)) = (j.id, j.request) :=
  claim_c9_poll_frame
    (InternalQueue.mk [(1, Job.mk 1 42 0)] [1] 0 true []) 5 (1, 42)
    (InternalQueue.mk [(1, Job.mk 1 42 0)] [] 5 true []) (by decide)

/-- C10: if the head of the dispatch queue has no Pending Index entry
(its job was completed or timed out while still queued), a poll pops and
discards that id and returns no job at once, without serving the next
queued id — the rest of the queue is left as is, with the heartbeat
refreshed. -/
theorem claim_c10_head_discard {Req Res : Type} (q : InternalQueue Req Res)
    (now id : Nat) (rest : List Nat)
    (hc : q.isConnected = true) (hq : q.queue = id :: rest)
    (hm : mapGet q.pendingJobs id = none) :
    q.getNextJob now =
      (none, { q with queue := rest, lastWorkerHeartbeat := now }) := by
  simp [InternalQueue.getNextJob, InternalQueue.registerHeartbeat, hc, hq, hm]

/-- Three submissions in a row, sharing a clock reading. -/
def afterThreeSubmits {Req Res : Type} (q : InternalQueue Req Res)
    (r1 r2 r3 : Req) (now id1 id2 id3 : Nat) : InternalQueue Req Res :=
  (((q.addJob r1 now id1).2.addJob r2 now id2).2.addJob r3 now id3).2

/-- C5: three requests accepted while the worker is active (into an
empty dispatch queue, with distinct fresh ids, none completed, timed out
or swept in between) are handed back by three successive polls in
submission order — FIFO. -/
theorem claim_c5_fifo_order {Req Res : Type} (q : InternalQueue Req Res)
    (r1 r2 r3 : Req) (now id1 id2 id3 : Nat)
    (hq : q.queue = []) (hact : q.isWorkerActive now = true)
    (h12 : id1 ≠ id2) (h13 : id1 ≠ id3) (h23 : id2 ≠ id3) :
    ((afterThreeSubmits q r1 r2 r3 now id1 id2 id3).getNextJob now).1 =
      some (id1, r1) ∧
    ((((afterThreeSubmits q r1 r2 r3 now id1 id2 id3).getNextJob
      now).2).getNextJob now).1 = some (id2, r2) ∧
    ((((((afterThreeSubmits q r1 r2 r3 now id1 id2 id3).getNextJob
      now).2).getNextJob now).2).getNextJob now).1 = some (id3, r3) := by
  have hact' := hact
  simp only [InternalQueue.isWorkerActive, Bool.and_eq_true,
    decide_eq_true_eq] at hact'
  obtain ⟨hc, hw⟩ := hact'
  refine ⟨?_, ?_, ?_⟩ <;>
    simp [afterThreeSubmits, InternalQueue.addJob,
      InternalQueue.isWorkerActive, InternalQueue.getNextJob,
      InternalQueue.registerHeartbeat, hc, hw, hq,
      mapGet_set_self, mapGet_set_ne, h12, h13, h23]

/-- C5 witness: after connecting at time 0, submissions 10, 20, 30 with
ids 1, 2, 3 are polled back in that order. -/
theorem claim_c5_witness :
    ((afterThreeSubmits ((InternalQueue.init : InternalQueue Nat Nat).connect 0)
      10 20 30 0 1 2 3).getNextJob 0).1 = some (1, 10) ∧
    ((((afterThreeSubmits
      ((InternalQueue.init : InternalQueue Nat Nat).connect 0)
      10 20 30 0 1 2 3).getNextJob 0).2).getNextJob 0).1 = some (2, 20) ∧
    ((((((afterThreeSubmits
      ((InternalQueue.init : InternalQueue Nat Nat).connect 0)
      10 20 30 0 1 2 3).getNextJob 0).2).getNextJob 0).2).getNextJob 0).1 =
      some (3, 30) :=
  claim_c5_fifo_order ((InternalQueue.init : InternalQueue Nat Nat).connect 0)
    10 20 30 0 1 2 3 (by decide) (by decide) (by decide) (by decide)
    (by decide)

/-- C2 counterexample: the claim fails as stated. After `connect`,
`submit` (id 1) and a `completeJob` for id 1 while it is still queued,
id 1 sits in the dispatch queue with no Pending Index entry, violating
the subset invariant at an observable point reached by public
operations. -/
theorem claim_c2_counterexample :
    (run (InternalQueue.init : InternalQueue Nat Nat)
      [Op.connect 0, Op.submit 5 0 1, Op.complete 1 9 none]).queue = [1] ∧
    mapGet (run (InternalQueue.init : InternalQueue Nat Nat)
      [Op.connect 0, Op.submit 5 0 1, Op.complete 1 9 none]).pendingJobs 1 =
      none := by
  decide

/-- C2 (amended): the queued-ids ⊆ index-keys invariant is preserved by
`connect`, `disconnect`, `submit`, `poll` and timeout firings, and by
`complete` whenever the completed id is no longer in the dispatch queue
(as in the intended protocol, where the worker only completes ids it
obtained from `poll`); a `complete` of a still-queued id breaks it. -/
theorem claim_c2_queue_subset_invariant {Req Res : Type}
    (q : InternalQueue Req Res) (op : Op Req Res)
    (hinv : ∀ id ∈ q.queue, mapGet q.pendingJobs id ≠ none)
    (hcomp : ∀ id r e, op = Op.complete id r e → id ∉ q.queue) :
    ∀ id ∈ (step q op).queue, mapGet (step q op).pendingJobs id ≠ none := by
  cases op with
  | connect now =>
    intro id hid
    simp only [step, InternalQueue.connect] at hid ⊢
    exact hinv id hid
  | disconnect =>
    intro id hid
    simp [step, InternalQueue.disconnect, InternalQueue.clearQueue] at hid
  | submit r now id0 =>
    cases ha : q.isWorkerActive now with
    | false =>
      intro id hid
      simp only [step, InternalQueue.addJob, ha] at hid ⊢
      simp at hid ⊢
      exact hinv id hid
    | true =>
      intro id hid
      simp only [step, InternalQueue.addJob, ha] at hid ⊢
      simp at hid ⊢
      rcases hid with h | h
      · by_cases he : id = id0
        · subst he; rw [mapGet_set_self]; simp
        · rw [mapGet_set_ne _ _ _ _ he]; exact hinv id h
      · subst h; rw [mapGet_set_self]; simp
  | poll now =>
    intro id hid
    obtain ⟨hpend, hqueue⟩ := InternalQueue.getNextJob_frame q now
    simp only [step] at hid ⊢
    rw [hpend]
    exact hinv id (hqueue id hid)
  | complete id0 r e =>
    have hni : id0 ∉ q.queue := hcomp id0 r e rfl
    cases hm : mapGet q.pendingJobs id0 with
    | none =>
      intro id hid
      simp only [step, InternalQueue.completeJob, hm] at hid ⊢
      exact hinv id hid
    | some j =>
      intro id hid
      simp only [step, InternalQueue.completeJob, hm] at hid ⊢
      have hne : id ≠ id0 := fun he => hni (he ▸ hid)
      rw [mapGet_delete_ne _ _ _ hne]
      exact hinv id hid
  | timeoutFires id0 =>
    cases hm : mapGet q.pendingJobs id0 with
    | none =>
      intro id hid
      simp only [step, InternalQueue.fireTimeout, hm] at hid ⊢
      exact hinv id hid
    | some j =>
      intro id hid
      simp only [step, InternalQueue.fireTimeout, hm] at hid ⊢
      obtain ⟨hmem, hdec⟩ := List.mem_filter.mp hid
      have hne : id ≠ id0 := by simpa using hdec
      rw [mapGet_delete_ne _ _ _ hne]
      exact hinv id hmem

/-- C2 witness: the amended invariant applied to a `complete` of the
popped (no longer queued) id 1, at the queued id 2: job 2 keeps its
Pending Index entry. -/
theorem claim_c2_witness :
    mapGet (step (InternalQueue.mk [(1, Job.mk 1 8 0), (2, Job.mk 2 9 0)]
        [2] 0 true [] : InternalQueue Nat Nat)
      (Op.complete 1 0 none)).pendingJobs 2 ≠ none :=
  claim_c2_queue_subset_invariant
    (InternalQueue.mk [(1, Job.mk 1 8 0), (2, Job.mk 2 9 0)] [2] 0 true [])
    (Op.complete 1 0 none)
    (by decide)
    (fun id r e h => by cases h; decide)
    2 (by decide)

/-- C10 witness: with head id 1 absent from the index and a deliverable
job 2 behind it, the first poll returns no job and the next poll delivers
job 2. -/
theorem claim_c10_witness :
    (InternalQueue.mk [(2, Job.mk 2 9 0)] [1, 2] 0 true []
        : InternalQueue Nat Nat).getNextJob 0 =
      (none, InternalQueue.mk [(2, Job.mk 2 9 0)] [2] 0 true []) ∧
    ((InternalQueue.mk [(2, Job.mk 2 9 0)] [2] 0 true []
        : InternalQueue Nat Nat).getNextJob 0).1 = some (2, 9) :=
  ⟨claim_c10_head_discard
      (InternalQueue.mk [(2, Job.mk 2 9 0)] [1, 2] 0 true []) 0 1 [2]
      rfl rfl (by decide),
    by decide⟩

/-- Broker state with 2 popped-but-incomplete jobs (ids 1, 2) and 3
queued jobs (ids 3, 4, 5): connect, five submissions, two polls. -/
def c1Pre : InternalQueue Nat Nat :=
  run InternalQueue.init
    [Op.connect 0, Op.submit 10 0 1, Op.submit 11 0 2, Op.submit 12 0 3,
     Op.submit 13 0 4, Op.submit 14 0 5, Op.poll 0, Op.poll 0]

/-- The state of `c1Pre` after `disconnect()`. -/
def c1Post : InternalQueue Nat Nat := c1Pre.disconnect

/-- C1: evaluation of `disconnect` at the spec's own scenario (3 queued
and 2 popped-but-incomplete jobs).  Before the disconnect, ids 1 and 2
are still in the Pending Index (popped but incomplete) and ids 3, 4, 5
are queued.  The disconnect sets liveness down, clears both structures
and leaves `pendingCount` 0 — but the complete event log shows only the
three queued ids were rejected with the worker-disconnected failure: the
two popped jobs were dropped from the index with no resolution at all,
so their callers' handles never resolve. -/
theorem claim_c1_disconnect_drops_popped_jobs :
    c1Pre.queue = [3, 4, 5] ∧
    (mapGet c1Pre.pendingJobs 1).isSome = true ∧
    (mapGet c1Pre.pendingJobs 2).isSome = true ∧
    c1Pre.events = [] ∧
    c1Post.isConnected = false ∧
    c1Post.getPendingCount = 0 ∧
    c1Post.pendingJobs = [] ∧
    c1Post.events =
      [JobEvent.rejected 3 QueueError.workerDisconnected,
       JobEvent.rejected 4 QueueError.workerDisconnected,
       JobEvent.rejected 5 QueueError.workerDisconnected] := by
  decide

/-- Any run of the broker from the initial state with pairwise-distinct
submission ids delivers a duplicate-free sequence of job ids through
polls.  The induction carries: the delivered ids `D` are duplicate-free
and disjoint from the current queue, the queue is duplicate-free, queue
and delivered ids all come from the set `used` of ids seen so far, every
index binding stores a job whose `id` field is its key, and the ids of
the pending submissions avoid `used`. -/
theorem deliveries_nodup_aux {Req Res : Type} (ops : List (Op Req Res)) :
    ∀ (q : InternalQueue Req Res) (D used : List Nat),
      D.Nodup → q.queue.Nodup →
      (∀ id ∈ D, id ∉ q.queue) →
      (∀ id ∈ q.queue, id ∈ used) →
      (∀ id ∈ D, id ∈ used) →
      (∀ p ∈ q.pendingJobs, (p.2).id = p.1) →
      (submitIds ops).Nodup →
      (∀ id ∈ submitIds ops, id ∉ used) →
      (D ++ deliveries q ops).Nodup := by
  induction ops with
  | nil =>
    intro q D used hD _ _ _ _ _ _ _
    simpa [deliveries] using hD
  | cons op ops ih =>
    intro q D used hD hQ hDQ hQU hDU hcons hS hSU
    cases op with
    | connect now =>
      simp only [deliveries, deliveredOf, step, List.nil_append]
      exact ih (q.connect now) D used hD hQ hDQ hQU hDU hcons hS hSU
    | disconnect =>
      simp only [deliveries, deliveredOf, step, List.nil_append]
      refine ih _ D used hD ?_ ?_ ?_ hDU ?_ hS hSU
      · simp [InternalQueue.disconnect, InternalQueue.clearQueue]
      · intro id hid
        simp [InternalQueue.disconnect, InternalQueue.clearQueue]
      · intro id hid
        simp [InternalQueue.disconnect, InternalQueue.clearQueue] at hid
      · intro p hp
        simp [InternalQueue.disconnect, InternalQueue.clearQueue] at hp
    | submit r now id0 =>
      simp only [deliveries, deliveredOf, step, List.nil_append]
      have hS' : (submitIds ops).Nodup := (List.nodup_cons.mp hS).2
      have hid0S : id0 ∉ submitIds ops := (List.nodup_cons.mp hS).1
      have hSU' : ∀ i ∈ submitIds ops, i ∉ (id0 :: used) := by
        intro i hi hmem
        rcases List.mem_cons.mp hmem with he | hu
        · exact hid0S (he ▸ hi)
        · exact hSU i (List.mem_cons_of_mem _ hi) hu
      have hid0U : id0 ∉ used := hSU id0 (List.mem_cons_self _ _)
      cases ha : q.isWorkerActive now with
      | false =>
        rw [show (q.addJob r now id0).2 = q from by
          simp [InternalQueue.addJob, ha]]
        refine ih q D (id0 :: used) hD hQ hDQ ?_ ?_ hcons hS' hSU'
        · exact fun id h => List.mem_cons_of_mem _ (hQU id h)
        · exact fun id h => List.mem_cons_of_mem _ (hDU id h)
      | true =>
        rw [show (q.addJob r now id0).2 =
            { q with pendingJobs := mapSet q.pendingJobs id0 (Job.mk id0 r now),
                     queue := q.queue ++ [id0] } from by
          simp [InternalQueue.addJob, ha]]
        have hid0Q : id0 ∉ q.queue := fun h => hid0U (hQU id0 h)
        have hid0D : id0 ∉ D := fun h => hid0U (hDU id0 h)
        refine ih _ D (id0 :: used) hD ?_ ?_ ?_ ?_ ?_ hS' hSU'
        · show (q.queue ++ [id0]).Nodup
          simp [List.nodup_append, hQ, hid0Q]
        · intro id hid
          show id ∉ q.queue ++ [id0]
          simp only [List.mem_append, List.mem_singleton]
          rintro (h | h)
          · exact hDQ id hid h
          · exact hid0D (h ▸ hid)
        · intro id hid
          rcases List.mem_append.mp hid with h | h
          · exact List.mem_cons_of_mem _ (hQU id h)
          · have he : id = id0 := by simpa using h
            rw [he]; exact List.mem_cons_self _ _
        · exact fun id h => List.mem_cons_of_mem _ (hDU id h)
        · exact mapSet_forall _ _ _ _ hcons rfl
    | poll now =>
      simp only [deliveries, deliveredOf, step]
      cases hc : q.isConnected with
      | false =>
        rw [InternalQueue.getNextJob_not_connected q now hc]
        show (D ++ ([] ++ deliveries q ops)).Nodup
        rw [List.nil_append]
        exact ih q D used hD hQ hDQ hQU hDU hcons hS hSU
      | true =>
        cases hq : q.queue with
        | nil =>
          have hstep : q.getNextJob now =
              (none, { q with lastWorkerHeartbeat := now }) := by
            simp [InternalQueue.getNextJob, InternalQueue.registerHeartbeat,
              hc, hq]
          rw [hstep]
          show (D ++ ([] ++
            deliveries { q with lastWorkerHeartbeat := now } ops)).Nodup
          rw [List.nil_append]
          exact ih _ D used hD hQ hDQ hQU hDU hcons hS hSU
        | cons id0 rest =>
          have hQ2 : (id0 :: rest).Nodup := hq ▸ hQ
          have hrestQ : rest.Nodup := (List.nodup_cons.mp hQ2).2
          have hid0rest : id0 ∉ rest := (List.nodup_cons.mp hQ2).1
          cases hm : mapGet q.pendingJobs id0 with
          | none =>
            have hstep : q.getNextJob now =
                (none, { q with lastWorkerHeartbeat := now, queue := rest }) := by
              simp [InternalQueue.getNextJob, InternalQueue.registerHeartbeat,
                hc, hq, hm]
            rw [hstep]
            show (D ++ ([] ++ deliveries
              { q with lastWorkerHeartbeat := now, queue := rest } ops)).Nodup
            rw [List.nil_append]
            refine ih _ D used hD hrestQ ?_ ?_ hDU hcons hS hSU
            · exact fun id hid hr =>
                hDQ id hid (by rw [hq]; exact List.mem_cons_of_mem _ hr)
            · exact fun id hr =>
                hQU id (by rw [hq]; exact List.mem_cons_of_mem _ hr)
          | some j =>
            have hjid : j.id = id0 := hcons (id0, j) (mapGet_mem _ _ _ hm)
            have hstep := InternalQueue.getNextJob_cons q now id0 rest j hc hq hm
            rw [hstep]
            show (D ++ ([j.id] ++ deliveries
              { q with lastWorkerHeartbeat := now, queue := rest } ops)).Nodup
            rw [hjid, ← List.append_assoc]
            have hid0D : id0 ∉ D := fun h =>
              hDQ id0 h (by rw [hq]; exact List.mem_cons_self _ _)
            refine ih _ (D ++ [id0]) used ?_ hrestQ ?_ ?_ ?_ hcons hS hSU
            · simp [List.nodup_append, hD, hid0D]
            · intro id hid
              rcases List.mem_append.mp hid with h | h
              · exact fun hr =>
                  hDQ id h (by rw [hq]; exact List.mem_cons_of_mem _ hr)
              · have he : id = id0 := by simpa using h
                rw [he]; exact hid0rest
            · exact fun id hr =>
                hQU id (by rw [hq]; exact List.mem_cons_of_mem _ hr)
            · intro id hid
              rcases List.mem_append.mp hid with h | h
              · exact hDU id h
              · have he : id = id0 := by simpa using h
                rw [he]
                exact hQU id0 (by rw [hq]; exact List.mem_cons_self _ _)
    | complete id0 r e =>
      simp only [deliveries, deliveredOf, step, List.nil_append]
      cases hm : mapGet q.pendingJobs id0 with
      | none =>
        rw [show (q.completeJob id0 r e).2 = q from by
          simp [InternalQueue.completeJob, hm]]
        exact ih q D used hD hQ hDQ hQU hDU hcons hS hSU
      | some j =>
        have hstep : (q.completeJob id0 r e).2 =
            { q with
              events := q.events ++
                [if InternalQueue.errTruthy e then
                    JobEvent.rejected id0 (QueueError.workerError (e.getD ""))
                  else JobEvent.resolved id0 r],
              pendingJobs := mapDelete q.pendingJobs id0 } := by
          simp [InternalQueue.completeJob, hm]
        rw [hstep]
        refine ih _ D used hD hQ hDQ hQU hDU ?_ hS hSU
        exact fun p hp => hcons p (mapDelete_subset _ _ p hp)
    | timeoutFires id0 =>
      simp only [deliveries, deliveredOf, step, List.nil_append]
      cases hm : mapGet q.pendingJobs id0 with
      | none =>
        rw [show q.fireTimeout id0 = q from by
          simp [InternalQueue.fireTimeout, hm]]
        exact ih q D used hD hQ hDQ hQU hDU hcons hS hSU
      | some j =>
        have hstep : q.fireTimeout id0 =
            { q with
              events := q.events ++ [JobEvent.rejected id0 QueueError.timedOut],
              pendingJobs := mapDelete q.pendingJobs id0,
              queue := q.queue.filter (fun qId => qId ≠ id0) } := by
          simp [InternalQueue.fireTimeout, hm]
        rw [hstep]
        refine ih _ D used hD ?_ ?_ ?_ hDU ?_ hS hSU
        · exact hQ.filter _
        · intro id hid hfr
          exact hDQ id hid (List.mem_filter.mp hfr).1
        · intro id hfr
          exact hQU id (List.mem_filter.mp hfr).1
        · exact fun p hp => hcons p (mapDelete_subset _ _ p hp)

/-- C8: across any sequence of public operations from the initial broker
state whose submissions use pairwise-distinct fresh ids (as
`crypto.randomUUID()` guarantees), any given job id is returned by polls
at most once. -/
theorem claim_c8_at_most_once_delivery {Req Res : Type}
    (ops : List (Op Req Res)) (h : (submitIds ops).Nodup) (id : Nat) :
    List.count id
      (deliveries (InternalQueue.init : InternalQueue Req Res) ops) ≤ 1 := by
  have hnd : (([] : List Nat) ++
      deliveries (InternalQueue.init : InternalQueue Req Res) ops).Nodup :=
    deliveries_nodup_aux ops InternalQueue.init [] [] (by simp)
      (by simp [InternalQueue.init]) (by simp)
      (by simp [InternalQueue.init]) (by simp)
      (by simp [InternalQueue.init]) h (by simp)
  rw [List.nil_append] at hnd
  exact List.nodup_iff_count_le_one.mp hnd id

/-- C8 witness: a connect, one submission, and two polls deliver id 1
exactly once. -/
theorem claim_c8_witness :
    List.count 1 (deliveries (InternalQueue.init : InternalQueue Nat Nat)
      [Op.connect 0, Op.submit 7 0 1, Op.poll 0, Op.poll 0]) ≤ 1 :=
  claim_c8_at_most_once_delivery
    [Op.connect 0, Op.submit 7 0 1, Op.poll 0, Op.poll 0] (by decide) 1

end TattvaMente
